import Mathlib

/-!
A shallow embedding of the poker state-transition engine of `based-poker`
(`src/lib/poker-utils.ts` and `src/components/game/GameControls.tsx`),
with theorems checking the natural-language specification against it.

JavaScript numbers holding chip amounts, bets and the pot are modelled as
`Int` (they may go negative: no clamping appears in the source); array
indices and counts are `Nat`.  `Math.random()`-driven choices are modelled
by an explicit choice function `Nat → Nat`, the value at step `i` being
taken modulo `i + 1` exactly as `Math.floor(Math.random() * (i + 1))`
lands in `[0, i]`.
-/

/-- Modelled from the spec (the `types` module is not under `src/`):
`suit ∈ {hearts, diamonds, clubs, spades}`. -/
inductive Suit where
  | hearts | diamonds | clubs | spades
deriving DecidableEq, Repr

/-- Modelled from the spec: `rank ∈ {2..10, J, Q, K, A}`. -/
inductive Rank where
  | r2 | r3 | r4 | r5 | r6 | r7 | r8 | r9 | r10 | jack | queen | king | ace
deriving DecidableEq, Repr

/-- Modelled from the spec: a card is a suit, a rank and a `faceUp` flag. -/
structure Card where
  suit : Suit
  rank : Rank
  faceUp : Bool
deriving DecidableEq, Repr

/-- Modelled from the spec: the six ordered stages of a hand. -/
inductive GameStage where
  | preflop | flop | turn | river | showdown | ended
deriving DecidableEq, Repr

/-- Modelled from the spec (the `types` module is not under `src/`): the
per-player record used by the engine.  The presentation-only `avatarUrl`
and `seatPosition` fields play no part in any transition and are omitted. -/
structure Player where
  id : String
  name : String
  chips : Int
  cards : List Card
  isActive : Bool
  isDealer : Bool
  isSmallBlind : Bool
  isBigBlind : Bool
  isTurn : Bool
  isAllIn : Bool
  bet : Int
deriving DecidableEq, Repr

/-- Modelled from the spec: the full table snapshot.  `activePlayerIndex`
is the extra index field written by the stage/new-hand handlers in
`GameControls.tsx` alongside `currentPlayerIndex`. -/
structure GameState where
  players : List Player
  communityCards : List Card
  deck : List Card
  pot : Int
  currentBet : Int
  stage : GameStage
  currentPlayerIndex : Nat
  activePlayerIndex : Option Nat
  dealerIndex : Nat
  smallBlindAmount : Int
  bigBlindAmount : Int
deriving DecidableEq, Repr

/-! ## Card & deck model (`poker-utils.ts`, `createDeck` / `shuffleDeck`) -/

def allSuits : List Suit := [.hearts, .diamonds, .clubs, .spades]

def allRanks : List Rank :=
  [.r2, .r3, .r4, .r5, .r6, .r7, .r8, .r9, .r10, .jack, .queen, .king, .ace]

/-- The deck built by the two nested `for` loops of `createDeck`, before
shuffling: for each suit, for each rank, push `{suit, rank, faceUp: false}`. -/
def baseDeck : List Card :=
  allSuits.flatMap fun s => allRanks.map fun r => { suit := s, rank := r, faceUp := false }

/-- One step of the Fisher-Yates loop: `[a[i], a[j]] = [a[j], a[i]]`.
Both indices are in range whenever the source executes the swap. -/
def listSwap (l : List Card) (i j : Nat) : List Card :=
  match l[i]?, l[j]? with
  | some a, some b => (l.set i b).set j a
  | _, _ => l

/-- The `for (let i = length - 1; i > 0; i--)` loop of `shuffleDeck`,
counting `i` down from the first argument; the random draw at index `i`
is `f i % (i + 1)`, matching `Math.floor(Math.random() * (i + 1))`. -/
def shuffleLoop (f : Nat → Nat) : Nat → List Card → List Card
  | 0, l => l
  | i + 1, l => shuffleLoop f i (listSwap l (i + 1) (f (i + 1) % (i + 2)))

/-- `shuffleDeck` (Fisher-Yates over a copy of the input). -/
def shuffleDeck (deck : List Card) (f : Nat → Nat) : List Card :=
  shuffleLoop f (deck.length - 1) deck

/-- `createDeck`: the 52 canonical face-down cards, shuffled. -/
def createDeck (f : Nat → Nat) : List Card :=
  shuffleDeck baseDeck f

/-- The (suit, rank) identity of a card, ignoring the `faceUp` flag. -/
def cardKey (c : Card) : Suit × Rank := (c.suit, c.rank)

/-- `deck.pop()`: remove and return the last element (the deck's "top");
on an empty array `pop()` yields `undefined` and leaves the array alone. -/
def popCard (deck : List Card) : Option Card × List Card :=
  match deck.getLast? with
  | none => (none, deck)
  | some c => (some c, deck.dropLast)

/-- The inner `for (j …)` pass of `dealCards`: pop one card per active
player, appending it face down to that player's hand; the push is skipped
when the deck is exhausted. -/
def dealRound : List Player → List Card → List Player × List Card
  | [], deck => ([], deck)
  | p :: ps, deck =>
    if p.isActive then
      match popCard deck with
      | (some c, d) =>
        let r := dealRound ps d
        ({ p with cards := p.cards ++ [{ c with faceUp := false }] } :: r.1, r.2)
      | (none, d) =>
        let r := dealRound ps d
        (p :: r.1, r.2)
    else
      let r := dealRound ps deck
      (p :: r.1, r.2)

/-- `dealCards`: the outer `for (i < 2)` loop — two one-card rounds. -/
def dealCards (gs : GameState) : GameState :=
  let r1 := dealRound gs.players gs.deck
  let r2 := dealRound r1.1 r1.2
  { gs with players := r2.1, deck := r2.2 }

def flipUp (c : Card) : Card := { c with faceUp := true }

/-- The `for (i < cardsToAdd)` loop of `dealCommunityCards`: pop a card
and append it face up to the community cards (skipping the push when the
deck is exhausted). -/
def dealCommunityLoop : Nat → List Card → List Card → List Card × List Card
  | 0, deck, cc => (deck, cc)
  | n + 1, deck, cc =>
    match popCard deck with
    | (some c, d) => dealCommunityLoop n d (cc ++ [flipUp c])
    | (none, d) => dealCommunityLoop n d cc

/-- `dealCommunityCards`: stage-driven card count (`cardsToAdd` is 3 for
the flop, 1 for turn and river — the `switch` falls through — and the
`default` branch returns the state unchanged). -/
def dealCommunityCards (gs : GameState) : GameState :=
  match gs.stage with
  | .flop =>
    let r := dealCommunityLoop 3 gs.deck gs.communityCards
    { gs with deck := r.1, communityCards := r.2 }
  | .turn =>
    let r := dealCommunityLoop 1 gs.deck gs.communityCards
    { gs with deck := r.1, communityCards := r.2 }
  | .river =>
    let r := dealCommunityLoop 1 gs.deck gs.communityCards
    { gs with deck := r.1, communityCards := r.2 }
  | _ => gs

/-! ## Table/role initializer (`poker-utils.ts`, `initializeGame`) -/

/-- The player record built by `Array.from` in `initializeGame` for
index `i` of a table of `count` players. -/
def mkPlayer (initialChips : Int) (count i : Nat) : Player :=
  { id := "player-" ++ toString i
    name := "Player " ++ toString (i + 1)
    chips := initialChips
    cards := []
    isActive := true
    isDealer := i == 0
    isSmallBlind := i == 1
    isBigBlind := i == 2 || (count == 2 && i == 1)
    isTurn := i == 3 || (count == 2 && i == 0) || (count == 3 && i == 0)
    isAllIn := false
    bet := 0 }

/-- The two in-place blind mutations
`players[idx].bet = blind; players[idx].chips -= blind`. -/
def postBlind (players : List Player) (idx : Nat) (blind : Int) : List Player :=
  match players[idx]? with
  | some p => players.set idx { p with bet := blind, chips := p.chips - blind }
  | none => players

/-- `initializeGame(playerCount, initialChips, smallBlind, bigBlind)`.
The TS source leaves `activePlayerIndex` unset here, so it is `none`. -/
def initializeGame (playerCount : Nat) (initialChips smallBlind bigBlind : Int)
    (f : Nat → Nat) : GameState :=
  let count := min (max playerCount 2) 10
  let players0 := (List.range count).map (mkPlayer initialChips count)
  let players1 := postBlind players0 (1 % count) smallBlind
  let players2 := postBlind players1 (2 % count) bigBlind
  { players := players2
    communityCards := []
    deck := createDeck f
    pot := smallBlind + bigBlind
    currentBet := bigBlind
    stage := .preflop
    currentPlayerIndex := 3 % count
    activePlayerIndex := none
    dealerIndex := 0
    smallBlindAmount := smallBlind
    bigBlindAmount := bigBlind }

/-! ## Turn cursor (`poker-utils.ts`, `nextPlayer`) -/

/-- The `while (!players[nextIndex].isActive && nextIndex !== currentPlayerIndex)`
search.  When `currentPlayerIndex < players.length` the source loop runs at
most `players.length - 1` times before stopping, so running the same test
on fuel `players.length` computes exactly the index the source resolves. -/
def findNextActive (players : List Player) (cpi : Nat) : Nat → Nat → Nat
  | idx, 0 => idx
  | idx, fuel + 1 =>
    if !((players[idx]?.map Player.isActive).getD false) && idx != cpi then
      findNextActive players cpi ((idx + 1) % players.length) fuel
    else idx

/-- `players.map((player, index) => …)`, keeping the index explicit. -/
def mapWithIndex (f : Nat → Player → Player) : Nat → List Player → List Player
  | _, [] => []
  | i, p :: ps => f i p :: mapWithIndex f (i + 1) ps

/-- `nextPlayer`: advance the cursor to the next active seat and rebuild
the player list with exactly the resolved index holding `isTurn`. -/
def nextPlayer (gs : GameState) : GameState :=
  let n := gs.players.length
  let nextIndex :=
    findNextActive gs.players gs.currentPlayerIndex ((gs.currentPlayerIndex + 1) % n) n
  { gs with
    players := mapWithIndex (fun i p => { p with isTurn := i == nextIndex }) 0 gs.players
    currentPlayerIndex := nextIndex }

/-! ## Betting action processor (`GameControls.tsx`) -/

/-- `currentPlayerId ? gameState.players.find(p => p.id === currentPlayerId)
: undefined`; the empty string is falsy in JS, hence the `""` test. -/
def findPlayer (gs : GameState) (pid : String) : Option Player :=
  if pid = "" then none else gs.players.find? (fun p => p.id == pid)

/-- `currentPlayer?.isTurn || false`. -/
def isPlayerTurn (gs : GameState) (pid : String) : Bool :=
  ((findPlayer gs pid).map Player.isTurn).getD false

/-- `allPlayersActed`: every active, non-all-in player has matched the
current bet or has no chips. -/
def allPlayersActed (gs : GameState) : Bool :=
  (gs.players.filter fun p => p.isActive && !p.isAllIn).all
    fun p => p.bet == gs.currentBet || p.chips == 0

/-- `handleFold`. -/
def handleFold (gs : GameState) (pid : String) : GameState :=
  if !(isPlayerTurn gs pid) then gs
  else
    nextPlayer { gs with
      players := gs.players.map fun p =>
        if p.id == pid then { p with isActive := false, isTurn := false } else p }

/-- `handleCheck`: legal only when the current bet is zero or already
matched by the acting player. -/
def handleCheck (gs : GameState) (pid : String) : GameState :=
  if !(isPlayerTurn gs pid) then gs
  else if 0 < gs.currentBet ∧ ((findPlayer gs pid).map Player.bet) ≠ some gs.currentBet then gs
  else nextPlayer gs

/-- `handleCall`: pay `currentBet - bet`, going all-in for the full stack
when the chips do not cover the call. -/
def handleCall (gs : GameState) (pid : String) : GameState :=
  match findPlayer gs pid with
  | none => gs
  | some cp =>
    if !cp.isTurn then gs
    else
      let amountToCall := gs.currentBet - cp.bet
      let goesAllIn := cp.chips ≤ amountToCall
      let actualCallAmount := if goesAllIn then cp.chips else amountToCall
      nextPlayer { gs with
        players := gs.players.map fun p =>
          if p.id == pid then
            { p with chips := p.chips - actualCallAmount,
                     bet := p.bet + actualCallAmount,
                     isAllIn := goesAllIn }
          else p,
        pot := gs.pot + actualCallAmount }

/-- `handleRaise`: `betAmount` is the new absolute bet level; rejected when
the delta exceeds the chips or `betAmount < currentBet * 2`. -/
def handleRaise (gs : GameState) (pid : String) (betAmount : Int) : GameState :=
  match findPlayer gs pid with
  | none => gs
  | some cp =>
    if !cp.isTurn then gs
    else
      let amountToAdd := betAmount - cp.bet
      if cp.chips < amountToAdd then gs
      else if betAmount < gs.currentBet * 2 then gs
      else
        nextPlayer { gs with
          players := gs.players.map fun p =>
            if p.id == pid then
              { p with chips := p.chips - amountToAdd,
                       bet := betAmount,
                       isAllIn := p.chips - amountToAdd == 0 }
            else p,
          pot := gs.pot + amountToAdd,
          currentBet := betAmount }

/-- `handleNewGame`: reset hands/bets/flags, rotate the dealer and role
flags by one seat, keep the remaining deck, then deal two hole cards. -/
def handleNewGame (gs : GameState) : GameState :=
  let n := gs.players.length
  let updatedPlayers := mapWithIndex (fun i p =>
    { p with cards := [], bet := 0, isActive := true, isAllIn := false,
             isDealer := i == (gs.dealerIndex + 1) % n,
             isSmallBlind := i == (gs.dealerIndex + 2) % n,
             isBigBlind := i == (gs.dealerIndex + 3) % n,
             isTurn := i == (gs.dealerIndex + 4) % n }) 0 gs.players
  dealCards { gs with
    players := updatedPlayers,
    communityCards := [],
    pot := 0,
    currentBet := gs.bigBlindAmount,
    stage := .preflop,
    activePlayerIndex := some ((gs.dealerIndex + 4) % n),
    dealerIndex := (gs.dealerIndex + 1) % n }

/-! ## Derived quantities and concrete example states -/

/-- Total chips held by the players of a state. -/
def sumChips (gs : GameState) : Int := (gs.players.map Player.chips).sum

/-- Total amount committed as bets in the current round. -/
def sumBets (gs : GameState) : Int := (gs.players.map Player.bet).sum

/-- The quantity named by the spec's chip-conservation invariant. -/
def conservedSum (gs : GameState) : Int := sumChips gs + sumBets gs + gs.pot

/-- The quantity the code actually conserves: bets are added to the pot
the moment they are made, so the committed `bet` amounts are already
counted inside `pot`. -/
def chipsPlusPot (gs : GameState) : Int := sumChips gs + gs.pot

/-- Number of players still contesting the pot. -/
def activeCount (ps : List Player) : Nat := ps.countP (fun p => p.isActive)

/-- Concrete player: 100 chips, dealer, to act, no bet yet. -/
def alice : Player :=
  ⟨"a", "A", 100, [], true, true, false, false, true, false, 0⟩

/-- Concrete player: 100 chips, posted a bet of 10. -/
def bob : Player :=
  ⟨"b", "B", 100, [], true, false, true, true, false, false, 10⟩

/-- A five-card deck remnant for the dealing examples. -/
def demoDeck : List Card :=
  [⟨.hearts, .r2, false⟩, ⟨.hearts, .r3, false⟩, ⟨.hearts, .r4, false⟩,
   ⟨.hearts, .r5, false⟩, ⟨.hearts, .r6, false⟩]

/-- A concrete two-player table: pot 15, current bet 10, `alice` to act. -/
def demoState : GameState :=
  ⟨[alice, bob], [], demoDeck, 15, 10, .preflop, 0, none, 0, 5, 10⟩

/-- `demoState` with the betting level at 0 and no outstanding bets. -/
def zeroBetState : GameState :=
  { demoState with currentBet := 0, players := [alice, { bob with bet := 0 }] }

/-- `demoState` where `alice` is broke (0 chips) with an unmatched bet. -/
def brokeState : GameState :=
  { demoState with players := [{ alice with chips := 0, bet := 5 }, bob] }

/-- `demoState` at the flop, about to receive community cards. -/
def flopState : GameState := { demoState with stage := .flop }

/-- `demoState` after the hand has ended, ready for `handleNewGame`. -/
def endedState : GameState := { demoState with stage := .ended }
lemma cons_set_perm (x b : Card) :
    ∀ (xs : List Card) (m : Nat), xs[m]? = some b →
      List.Perm (b :: xs.set m x) (x :: xs) := by
  intro xs
  induction xs with
  | nil => intro m h; simp at h
  | cons y t ih =>
    intro m h
    cases m with
    | zero =>
      obtain rfl : y = b := by simpa using h
      show List.Perm (y :: x :: t) (x :: y :: t)
      exact List.Perm.swap x y t
    | succ k =>
      have hk : t[k]? = some b := by simpa using h
      show List.Perm (b :: y :: t.set k x) (x :: y :: t)
      exact (List.Perm.swap y b (t.set k x)).trans
        (((ih k hk).cons y).trans (List.Perm.swap x y t))

lemma listSwap_perm : ∀ (l : List Card) (i j : Nat), List.Perm (listSwap l i j) l := by
  intro l
  induction l with
  | nil => intro i j; unfold listSwap; simp
  | cons x xs ih =>
    intro i j
    unfold listSwap
    cases i with
    | zero =>
      cases j with
      | zero => simp
      | succ m =>
        simp only [List.getElem?_cons_zero, List.getElem?_cons_succ]
        cases hm : xs[m]? with
        | none => exact List.Perm.refl _
        | some b =>
          show List.Perm (b :: xs.set m x) (x :: xs)
          exact cons_set_perm x b xs m hm
    | succ k =>
      cases j with
      | zero =>
        simp only [List.getElem?_cons_zero, List.getElem?_cons_succ]
        cases hk : xs[k]? with
        | none => exact List.Perm.refl _
        | some a =>
          show List.Perm (a :: xs.set k x) (x :: xs)
          exact cons_set_perm x a xs k hk
      | succ m =>
        simp only [List.getElem?_cons_succ]
        cases hk : xs[k]? with
        | none => exact List.Perm.refl _
        | some a =>
          cases hm : xs[m]? with
          | none => exact List.Perm.refl _
          | some b =>
            have h2 := ih k m
            unfold listSwap at h2
            rw [hk, hm] at h2
            show List.Perm (x :: (xs.set k b).set m a) (x :: xs)
            exact h2.cons x

lemma shuffleLoop_perm (f : Nat → Nat) :
    ∀ (n : Nat) (l : List Card), List.Perm (shuffleLoop f n l) l := by
  intro n
  induction n with
  | zero => intro l; exact List.Perm.refl l
  | succ i ih =>
    intro l
    exact (ih _).trans (listSwap_perm l (i + 1) (f (i + 1) % (i + 2)))

lemma shuffleDeck_perm (deck : List Card) (f : Nat → Nat) :
    List.Perm (shuffleDeck deck f) deck :=
  shuffleLoop_perm f (deck.length - 1) deck

/-! ## Dealing engine (`poker-utils.ts`, `dealCards` / `dealCommunityCards`) -/

lemma createDeck_perm (f : Nat → Nat) : List.Perm (createDeck f) baseDeck :=
  shuffleDeck_perm baseDeck f

/-- C9: every deck returned by `createDeck` has exactly 52 cards with
pairwise-distinct (suit, rank) pairs, and `shuffleDeck` returns, for every
sequence of random choices, a sequence holding exactly the same multiset
of cards as its input (the input list itself is a pure value and is never
mutated). -/
theorem createDeck_shuffleDeck_spec :
    (∀ f : Nat → Nat,
      (createDeck f).length = 52 ∧ ((createDeck f).map cardKey).Nodup) ∧
    (∀ (deck : List Card) (f : Nat → Nat), List.Perm (shuffleDeck deck f) deck) := by
  constructor
  · intro f
    have hp := createDeck_perm f
    constructor
    · rw [hp.length_eq]
      decide
    · have hmap := hp.map cardKey
      exact hmap.nodup_iff.mpr (by decide)
  · exact shuffleDeck_perm

/-- C4 (amended): the predicate computed by the controls is true iff every
active, non-all-in player has either matched the current bet or has zero
chips; the original claim omits the zero-chips escape. -/
theorem allPlayersActed_iff (gs : GameState) :
    allPlayersActed gs = true ↔
      ∀ p ∈ gs.players, p.isActive = true → p.isAllIn = false →
        (p.bet = gs.currentBet ∨ p.chips = 0) := by
  unfold allPlayersActed
  rw [List.all_eq_true]
  constructor
  · intro h p hp hact hall
    have hm : p ∈ gs.players.filter fun q => q.isActive && !q.isAllIn :=
      List.mem_filter.mpr ⟨hp, by simp [hact, hall]⟩
    have := h p hm
    simpa using this
  · intro h p hp
    obtain ⟨hmem, hcond⟩ := List.mem_filter.mp hp
    have hact : p.isActive = true := by
      have := hcond
      simp only [Bool.and_eq_true, Bool.not_eq_true'] at this
      exact this.1
    have hall : p.isAllIn = false := by
      have := hcond
      simp only [Bool.and_eq_true, Bool.not_eq_true'] at this
      exact this.2
    have := h p hmem hact hall
    simpa using this

/-- C4, counterexample to the claim as stated: in `brokeState` the first
player is active, not all-in, and has bet 5 while the current bet is 10,
yet the predicate is true — the `chips === 0` disjunct saves it. -/
theorem allPlayersActed_cex :
    allPlayersActed brokeState = true ∧
      ¬ (∀ p ∈ brokeState.players, p.isActive = true → p.isAllIn = false →
          p.bet = brokeState.currentBet) := by
  constructor
  · decide
  · intro h
    have := h { alice with chips := 0, bet := 5 } (by decide) (by decide) (by decide)
    simp [alice, brokeState, demoState] at this

/-- C2: evaluation of `initializeGame(2, 1000, 5, 10)`.  The heads-up
override marks player 1 as both small and big blind, and player 0 as
dealer and first to act, with pot 15 and current bet 10 — but the blind
deductions use `2 % count = 0` for the big blind, so player 1 only pays
the small blind (chips 995, bet 5) while player 0 pays the big blind
(chips 990, bet 10), contradicting the claim that player 1's chips drop
by both blind amounts. -/
theorem initializeGame_headsUp_eval (f : Nat → Nat) :
    (initializeGame 2 1000 5 10 f).players.length = 2 ∧
    (initializeGame 2 1000 5 10 f).players[0]? = some
      { id := "player-0", name := "Player 1", chips := 990, cards := [],
        isActive := true, isDealer := true, isSmallBlind := false,
        isBigBlind := false, isTurn := true, isAllIn := false, bet := 10 } ∧
    (initializeGame 2 1000 5 10 f).players[1]? = some
      { id := "player-1", name := "Player 2", chips := 995, cards := [],
        isActive := true, isDealer := false, isSmallBlind := true,
        isBigBlind := true, isTurn := false, isAllIn := false, bet := 5 } ∧
    (initializeGame 2 1000 5 10 f).pot = 15 ∧
    (initializeGame 2 1000 5 10 f).currentBet = 10 := by
  exact ⟨rfl, rfl, rfl, rfl, rfl⟩

lemma isPlayerTurn_of_findPlayer (gs : GameState) (pid : String) (cp : Player)
    (hf : findPlayer gs pid = some cp) : isPlayerTurn gs pid = cp.isTurn := by
  unfold isPlayerTurn
  rw [hf]
  rfl

/-- C5: every violated precondition — acting player without `isTurn`, a
check against an unmatched positive bet, a raise below the doubled
minimum, a raise whose delta exceeds the chips — yields the input state
back unchanged, with no error value. -/
theorem invalid_action_noop (gs : GameState) (pid : String) (ba : Int) :
    (isPlayerTurn gs pid = false →
      handleFold gs pid = gs ∧ handleCheck gs pid = gs ∧
      handleCall gs pid = gs ∧ handleRaise gs pid ba = gs) ∧
    (∀ cp, findPlayer gs pid = some cp →
      (0 < gs.currentBet → cp.bet ≠ gs.currentBet → handleCheck gs pid = gs) ∧
      (ba < gs.currentBet * 2 → handleRaise gs pid ba = gs) ∧
      (cp.chips < ba - cp.bet → handleRaise gs pid ba = gs)) := by
  constructor
  · intro hturn
    refine ⟨?_, ?_, ?_, ?_⟩
    · simp [handleFold, hturn]
    · simp [handleCheck, hturn]
    · unfold handleCall
      cases hf : findPlayer gs pid with
      | none => rfl
      | some cp =>
        have : cp.isTurn = false := (isPlayerTurn_of_findPlayer gs pid cp hf) ▸ hturn
        simp [this]
    · unfold handleRaise
      cases hf : findPlayer gs pid with
      | none => rfl
      | some cp =>
        have : cp.isTurn = false := (isPlayerTurn_of_findPlayer gs pid cp hf) ▸ hturn
        simp [this]
  · intro cp hf
    refine ⟨?_, ?_, ?_⟩
    · intro hpos hne
      unfold handleCheck
      by_cases hturn : isPlayerTurn gs pid
      · rw [hf]
        simp only [hturn]
        have : (some cp.bet ≠ some gs.currentBet) := by simpa using hne
        simp [hpos, this, Option.map]
      · simp [hturn]
    · intro hlt
      unfold handleRaise
      rw [hf]
      by_cases hturn : cp.isTurn
      · simp only [hturn]
        by_cases hchips : cp.chips < ba - cp.bet
        · simp [hchips]
        · simp [hchips, hlt]
      · simp [hturn]
    · intro hchips
      unfold handleRaise
      rw [hf]
      by_cases hturn : cp.isTurn
      · simp [hturn, hchips]
      · simp [hturn]

/-- C5, witness: concrete rejections — `bob` (not on turn) folding,
`alice` checking against the unmatched bet of 10, `alice` raising to 15
(below `10 * 2`), and `alice` raising to 150 (delta above her 100 chips)
all leave `demoState` untouched. -/
theorem invalid_action_noop_witness :
    handleFold demoState "b" = demoState ∧
    handleCheck demoState "a" = demoState ∧
    handleRaise demoState "a" 15 = demoState ∧
    handleRaise demoState "a" 150 = demoState := by
  refine ⟨((invalid_action_noop demoState "b" 0).1 (by decide)).1,
    (((invalid_action_noop demoState "a" 0).2 alice (by decide)).1 (by decide) (by decide)),
    (((invalid_action_noop demoState "a" 15).2 alice (by decide)).2.1 (by decide)),
    (((invalid_action_noop demoState "a" 150).2 alice (by decide)).2.2 (by decide))⟩

lemma popCard_concat (d : List Card) (c : Card) : popCard (d ++ [c]) = (some c, d) := by
  simp [popCard, List.getLast?_concat, List.dropLast_concat]


lemma dealCommunityLoop_concat (n : Nat) (d : List Card) (c : Card) (cc : List Card) :
    dealCommunityLoop (n + 1) (d ++ [c]) cc = dealCommunityLoop n d (cc ++ [flipUp c]) := by
  conv_lhs => simp only [dealCommunityLoop]
  rw [popCard_concat]

lemma dealCommunityLoop_three (d : List Card) (a b c : Card) (cc : List Card) :
    dealCommunityLoop 3 (d ++ [a, b, c]) cc = (d, cc ++ [flipUp c, flipUp b, flipUp a]) := by
  have e1 : d ++ [a, b, c] = (d ++ [a, b]) ++ [c] := by simp
  have e2 : d ++ [a, b] = (d ++ [a]) ++ [b] := by simp
  rw [e1, dealCommunityLoop_concat, e2, dealCommunityLoop_concat, dealCommunityLoop_concat]
  show (d, ((cc ++ [flipUp c]) ++ [flipUp b]) ++ [flipUp a]) = _
  simp

/-- C6: `dealCommunityCards` at the flop moves the top three deck cards,
face up, onto the community cards; at the turn or river it moves one; at
any other stage it returns the state unchanged. -/
theorem dealCommunityCards_spec (gs : GameState) :
    (∀ (d : List Card) (a b c : Card), gs.stage = .flop → gs.deck = d ++ [a, b, c] →
      dealCommunityCards gs =
        { gs with deck := d,
                  communityCards := gs.communityCards ++ [flipUp c, flipUp b, flipUp a] }) ∧
    (∀ (d : List Card) (a : Card),
      (gs.stage = .turn ∨ gs.stage = .river) → gs.deck = d ++ [a] →
      dealCommunityCards gs =
        { gs with deck := d, communityCards := gs.communityCards ++ [flipUp a] }) ∧
    ((gs.stage = .preflop ∨ gs.stage = .showdown ∨ gs.stage = .ended) →
      dealCommunityCards gs = gs) := by
  obtain ⟨ps, cc, dk, pot, cb, st, cpi, api, di, sb, bb⟩ := gs
  refine ⟨?_, ?_, ?_⟩
  · intro d a b c hst hdk
    dsimp only at hst hdk ⊢
    subst hst
    subst hdk
    show (let r := dealCommunityLoop 3 (d ++ [a, b, c]) cc
          ({ players := ps, communityCards := r.2, deck := r.1, pot := pot,
             currentBet := cb, stage := .flop, currentPlayerIndex := cpi,
             activePlayerIndex := api, dealerIndex := di, smallBlindAmount := sb,
             bigBlindAmount := bb } : GameState)) = _
    rw [dealCommunityLoop_three]
  · intro d a hst hdk
    dsimp only at hst hdk ⊢
    rcases hst with hst | hst
    · subst hst
      subst hdk
      show (let r := dealCommunityLoop 1 (d ++ [a]) cc
            ({ players := ps, communityCards := r.2, deck := r.1, pot := pot,
               currentBet := cb, stage := .turn, currentPlayerIndex := cpi,
               activePlayerIndex := api, dealerIndex := di, smallBlindAmount := sb,
               bigBlindAmount := bb } : GameState)) = _
      rw [dealCommunityLoop_concat]
      rfl
    · subst hst
      subst hdk
      show (let r := dealCommunityLoop 1 (d ++ [a]) cc
            ({ players := ps, communityCards := r.2, deck := r.1, pot := pot,
               currentBet := cb, stage := .river, currentPlayerIndex := cpi,
               activePlayerIndex := api, dealerIndex := di, smallBlindAmount := sb,
               bigBlindAmount := bb } : GameState)) = _
      rw [dealCommunityLoop_concat]
      rfl
  · intro hst
    dsimp only at hst
    rcases hst with hst | hst | hst
    all_goals (subst hst; rfl)

/-- C6, witness: dealing the flop on `flopState` (deck of five cards
ending in 4-hearts 5-hearts 6-hearts) yields community cards 6 5 4 of
hearts, face up, and leaves the two-card deck remnant. -/
theorem dealCommunityCards_spec_witness :
    dealCommunityCards flopState =
      { flopState with
        deck := [⟨.hearts, .r2, false⟩, ⟨.hearts, .r3, false⟩],
        communityCards :=
          [⟨.hearts, .r6, true⟩, ⟨.hearts, .r5, true⟩, ⟨.hearts, .r4, true⟩] } := by
  have h := (dealCommunityCards_spec flopState).1
    [⟨.hearts, .r2, false⟩, ⟨.hearts, .r3, false⟩]
    ⟨.hearts, .r4, false⟩ ⟨.hearts, .r5, false⟩ ⟨.hearts, .r6, false⟩
    (by decide) (by decide)
  rw [h]
  decide

lemma dealRound_map_chips : ∀ (ps : List Player) (deck : List Card),
    (dealRound ps deck).1.map Player.chips = ps.map Player.chips := by
  intro ps
  induction ps with
  | nil => intro deck; rfl
  | cons p t ih =>
    intro deck
    unfold dealRound
    by_cases hp : p.isActive
    · simp only [hp, if_true]
      cases hpop : popCard deck with
      | mk oc d => cases oc <;> simp [ih]
    · simp [hp, ih]

lemma mapWithIndex_map (f : Nat → Player → Player) (g : Player → Int)
    (hf : ∀ i p, g (f i p) = g p) :
    ∀ (k : Nat) (l : List Player), (mapWithIndex f k l).map g = l.map g := by
  intro k l
  induction l generalizing k with
  | nil => rfl
  | cons p t ih => simp [mapWithIndex, hf, ih]

/-- C10: starting a new hand through the new-game handler changes no
player's chips (no blinds are deducted although `currentBet` is reset to
the big blind and the pot to 0), and the deck is not rebuilt: the fresh
hole cards come off whatever deck was left, so on `endedState` (a
five-card remnant) the reset hand accounts for only 5 cards in total —
well short of 52. -/
theorem handleNewGame_spec :
    (∀ gs : GameState,
      (handleNewGame gs).players.map Player.chips = gs.players.map Player.chips ∧
      (handleNewGame gs).pot = 0 ∧
      (handleNewGame gs).currentBet = gs.bigBlindAmount) ∧
    ((handleNewGame endedState).deck.length
        + ((handleNewGame endedState).players.map fun p => p.cards.length).sum
        + (handleNewGame endedState).communityCards.length = 5) := by
  constructor
  · intro gs
    refine ⟨?_, rfl, rfl⟩
    show (dealCards _).players.map Player.chips = _
    unfold dealCards
    rw [dealRound_map_chips, dealRound_map_chips]
    show List.map Player.chips (mapWithIndex _ 0 gs.players) = _
    apply mapWithIndex_map
    intro i p
    rfl
  · decide

lemma map_update_preserve (g : Player → Int) (f : Player → Player) (pid : String)
    (hf : ∀ p, g (f p) = g p) (l : List Player) :
    ((l.map fun p => if p.id == pid then f p else p).map g) = l.map g := by
  induction l with
  | nil => rfl
  | cons p t ih =>
    simp only [List.map_cons]
    rw [ih]
    congr 1
    by_cases hp : p.id = pid <;> simp [hp, hf]

lemma sum_map_update (g : Player → Int) (f : Player → Player) (pid : String) :
    ∀ (l : List Player) (cp : Player), (l.map Player.id).Nodup →
      l.find? (fun p => p.id == pid) = some cp →
      (((l.map fun p => if p.id == pid then f p else p).map g).sum
        = (l.map g).sum - g cp + g (f cp)) := by
  intro l
  induction l with
  | nil =>
    intro cp _ h
    simp at h
  | cons p t ih =>
    intro cp hnd hfind
    have hnd' : (t.map Player.id).Nodup ∧ p.id ∉ t.map Player.id := by
      have := hnd
      simp only [List.map_cons, List.nodup_cons] at this
      exact ⟨this.2, this.1⟩
    by_cases hp : p.id = pid
    · have hcp : cp = p := by
        have h := hfind
        rw [List.find?_cons_of_pos _ (by simpa using hp)] at h
        exact (Option.some_inj.mp h).symm
      have hnom : (t.map fun q => if q.id == pid then f q else q) = t := by
        have hc : ∀ q ∈ t, (if q.id == pid then f q else q) = q := by
          intro q hq
          have hqne : ¬ q.id = pid := fun hqe =>
            hnd'.2 (hp ▸ hqe ▸ List.mem_map_of_mem Player.id hq)
          simp [hqne]
        calc t.map (fun q => if q.id == pid then f q else q)
            = t.map id := List.map_congr_left (by intro q hq; simpa using hc q hq)
          _ = t := List.map_id t
      have hif : (if (p.id == pid) = true then f p else p) = f p := by simp [hp]
      simp only [List.map_cons, List.sum_cons, hnom, hif, hcp]
      omega
    · have hfind' : t.find? (fun q => q.id == pid) = some cp := by
        have h := hfind
        rwa [List.find?_cons_of_neg _ (by simpa using hp)] at h
      have hrec := ih cp hnd'.1 hfind'
      have hne : (if (p.id == pid) = true then f p else p) = p := by simp [hp]
      simp only [List.map_cons, List.sum_cons, hne, hrec]
      omega

lemma nextPlayer_map_chips (s : GameState) :
    (nextPlayer s).players.map Player.chips = s.players.map Player.chips := by
  unfold nextPlayer
  dsimp only
  apply mapWithIndex_map
  intro i p
  rfl

lemma nextPlayer_map_bets (s : GameState) :
    (nextPlayer s).players.map Player.bet = s.players.map Player.bet := by
  unfold nextPlayer
  dsimp only
  apply mapWithIndex_map
  intro i p
  rfl

lemma nextPlayer_chipsPlusPot (s : GameState) :
    chipsPlusPot (nextPlayer s) = chipsPlusPot s := by
  unfold chipsPlusPot sumChips
  rw [nextPlayer_map_chips]
  rfl

lemma nextPlayer_conservedSum (s : GameState) :
    conservedSum (nextPlayer s) = conservedSum s := by
  unfold conservedSum sumChips sumBets
  rw [nextPlayer_map_chips, nextPlayer_map_bets]
  rfl

lemma find?_of_findPlayer {gs : GameState} {pid : String} {cp : Player}
    (h : findPlayer gs pid = some cp) :
    gs.players.find? (fun p => p.id == pid) = some cp := by
  unfold findPlayer at h
  by_cases hp : pid = ""
  · simp [hp] at h
  · simpa [hp] using h

lemma handleFold_sums (gs : GameState) (pid : String) :
    chipsPlusPot (handleFold gs pid) = chipsPlusPot gs ∧
    conservedSum (handleFold gs pid) = conservedSum gs := by
  unfold handleFold
  by_cases ht : isPlayerTurn gs pid
  · rw [if_neg (by simp [ht])]
    constructor
    · rw [nextPlayer_chipsPlusPot]
      simp only [chipsPlusPot, sumChips]
      rw [map_update_preserve Player.chips
        (fun p => { p with isActive := false, isTurn := false }) pid (fun p => rfl) gs.players]
    · rw [nextPlayer_conservedSum]
      simp only [conservedSum, sumChips, sumBets]
      rw [map_update_preserve Player.chips
        (fun p => { p with isActive := false, isTurn := false }) pid (fun p => rfl) gs.players,
        map_update_preserve Player.bet
        (fun p => { p with isActive := false, isTurn := false }) pid (fun p => rfl) gs.players]
  · simp [ht]

lemma handleCheck_sums (gs : GameState) (pid : String) :
    chipsPlusPot (handleCheck gs pid) = chipsPlusPot gs ∧
    conservedSum (handleCheck gs pid) = conservedSum gs := by
  unfold handleCheck
  by_cases ht : isPlayerTurn gs pid
  · rw [if_neg (by simp [ht])]
    by_cases hc : 0 < gs.currentBet ∧ ((findPlayer gs pid).map Player.bet) ≠ some gs.currentBet
    · rw [if_pos hc]
      exact ⟨rfl, rfl⟩
    · rw [if_neg hc]
      exact ⟨nextPlayer_chipsPlusPot gs, nextPlayer_conservedSum gs⟩
  · simp [ht]

lemma handleCall_sums (gs : GameState) (pid : String)
    (hnd : (gs.players.map Player.id).Nodup) :
    chipsPlusPot (handleCall gs pid) = chipsPlusPot gs := by
  unfold handleCall
  cases hf : findPlayer gs pid with
  | none => rfl
  | some cp =>
    dsimp only
    by_cases ht : cp.isTurn
    · rw [if_neg (by simp [ht])]
      rw [nextPlayer_chipsPlusPot]
      simp only [chipsPlusPot, sumChips]
      rw [sum_map_update Player.chips
        (fun p => { p with
          chips := p.chips -
            (if cp.chips ≤ gs.currentBet - cp.bet then cp.chips else gs.currentBet - cp.bet),
          bet := p.bet +
            (if cp.chips ≤ gs.currentBet - cp.bet then cp.chips else gs.currentBet - cp.bet),
          isAllIn := decide (cp.chips ≤ gs.currentBet - cp.bet) })
        pid gs.players cp hnd (find?_of_findPlayer hf)]
      dsimp only
      linarith
    · simp [ht]

lemma handleRaise_sums (gs : GameState) (pid : String) (ba : Int)
    (hnd : (gs.players.map Player.id).Nodup) :
    chipsPlusPot (handleRaise gs pid ba) = chipsPlusPot gs := by
  unfold handleRaise
  cases hf : findPlayer gs pid with
  | none => rfl
  | some cp =>
    dsimp only
    by_cases ht : cp.isTurn
    · rw [if_neg (by simp [ht])]
      by_cases hchips : cp.chips < ba - cp.bet
      · rw [if_pos hchips]
      · rw [if_neg hchips]
        by_cases hmin : ba < gs.currentBet * 2
        · rw [if_pos hmin]
        · rw [if_neg hmin]
          rw [nextPlayer_chipsPlusPot]
          simp only [chipsPlusPot, sumChips]
          rw [sum_map_update Player.chips
            (fun p => { p with
              chips := p.chips - (ba - cp.bet),
              bet := ba,
              isAllIn := p.chips - (ba - cp.bet) == 0 })
            pid gs.players cp hnd (find?_of_findPlayer hf)]
          dsimp only
          linarith
    · simp [ht]

/-- C1 (amended): rejected actions and accepted folds and checks do
preserve `Σ chips + Σ bet + pot`, but an accepted call or raise adds the
amount paid to both the payer's `bet` and the `pot`, so that quantity
grows by the amount paid; the quantity the handlers actually keep
invariant — for every state with pairwise-distinct player ids, over every
fold/check/call/raise, accepted or rejected — is `Σ chips + pot`. -/
theorem chip_conservation_amended (gs : GameState) (pid : String) (ba : Int)
    (hnd : (gs.players.map Player.id).Nodup) :
    chipsPlusPot (handleFold gs pid) = chipsPlusPot gs ∧
    chipsPlusPot (handleCheck gs pid) = chipsPlusPot gs ∧
    chipsPlusPot (handleCall gs pid) = chipsPlusPot gs ∧
    chipsPlusPot (handleRaise gs pid ba) = chipsPlusPot gs ∧
    conservedSum (handleFold gs pid) = conservedSum gs ∧
    conservedSum (handleCheck gs pid) = conservedSum gs :=
  ⟨(handleFold_sums gs pid).1, (handleCheck_sums gs pid).1,
   handleCall_sums gs pid hnd, handleRaise_sums gs pid ba hnd,
   (handleFold_sums gs pid).2, (handleCheck_sums gs pid).2⟩

/-- C1, witness: on the concrete `demoState` (distinct ids `a`, `b`),
`Σ chips + pot` is unchanged by an accepted call and an accepted raise. -/
theorem chip_conservation_amended_witness :
    chipsPlusPot (handleCall demoState "a") = chipsPlusPot demoState ∧
    chipsPlusPot (handleRaise demoState "a" 20) = chipsPlusPot demoState :=
  ⟨(chip_conservation_amended demoState "a" 20 (by decide)).2.2.1,
   (chip_conservation_amended demoState "a" 20 (by decide)).2.2.2.1⟩

/-- C1, counterexample to the claim as stated: `alice` calling the bet of
10 in `demoState` moves 10 chips into the pot *and* records them in her
`bet`, so `Σ chips + Σ bet + pot` grows from 225 to 235. -/
theorem chip_conservation_cex :
    conservedSum (handleCall demoState "a") ≠ conservedSum demoState := by
  decide

lemma forall₂_mapWithIndex_map (R : Player → Player → Prop)
    (f : Nat → Player → Player) (g : Player → Player)
    (h : ∀ i p, R p (f i (g p))) :
    ∀ (k : Nat) (l : List Player), List.Forall₂ R l (mapWithIndex f k (l.map g)) := by
  intro k l
  induction l generalizing k with
  | nil => exact List.Forall₂.nil
  | cons p t ih => exact List.Forall₂.cons (h k p) (ih (k + 1))

/-- C3 (amended): with the acting player on turn, a raise to below
`currentBet * 2` is always rejected unchanged; a raise to
`betAmount ≥ currentBet * 2` whose delta fits in the player's chips is
always accepted, setting `currentBet` to `betAmount`, adding the delta to
the pot, setting the acting player's bet to `betAmount` and deducting the
delta from their chips — and this strictly increases `currentBet`
whenever `currentBet > 0` (with `currentBet = 0` an accepted raise of 0
leaves it unchanged, so the unconditional strict increase of the original
claim fails). -/
theorem handleRaise_validation_amended (gs : GameState) (pid : String) (ba : Int)
    (cp : Player) (hf : findPlayer gs pid = some cp) (ht : cp.isTurn = true) :
    (ba < gs.currentBet * 2 → handleRaise gs pid ba = gs) ∧
    (gs.currentBet * 2 ≤ ba → ba - cp.bet ≤ cp.chips →
      ((handleRaise gs pid ba).currentBet = ba ∧
       (handleRaise gs pid ba).pot = gs.pot + (ba - cp.bet) ∧
       (0 < gs.currentBet → gs.currentBet < (handleRaise gs pid ba).currentBet) ∧
       List.Forall₂ (fun p q : Player =>
           q.id = p.id ∧
           (p.id = pid → q.bet = ba ∧ q.chips = p.chips - (ba - cp.bet)) ∧
           (¬ p.id = pid → q.bet = p.bet ∧ q.chips = p.chips))
         gs.players (handleRaise gs pid ba).players)) := by
  constructor
  · intro hmin
    unfold handleRaise
    rw [hf]
    dsimp only
    rw [if_neg (by simp [ht])]
    by_cases hchips : cp.chips < ba - cp.bet
    · rw [if_pos hchips]
    · rw [if_neg hchips, if_pos hmin]
  · intro hge hfit
    have hred : handleRaise gs pid ba =
        nextPlayer { gs with
          players := gs.players.map fun p =>
            if p.id == pid then
              { p with chips := p.chips - (ba - cp.bet),
                       bet := ba,
                       isAllIn := p.chips - (ba - cp.bet) == 0 }
            else p,
          pot := gs.pot + (ba - cp.bet),
          currentBet := ba } := by
      unfold handleRaise
      rw [hf]
      dsimp only
      rw [if_neg (by simp [ht]), if_neg (by omega), if_neg (by omega)]
    rw [hred]
    refine ⟨rfl, rfl, ?_, ?_⟩
    · intro hpos
      show gs.currentBet < ba
      omega
    · show List.Forall₂ _ gs.players (mapWithIndex _ 0 (gs.players.map _))
      apply forall₂_mapWithIndex_map
      intro i p
      by_cases hp : p.id = pid
      · refine ⟨by simp [hp], fun _ => ⟨by simp [hp], by simp [hp]⟩, fun hc => absurd hp hc⟩
      · refine ⟨by simp [hp], fun hc => absurd hc hp, fun _ => ⟨by simp [hp], by simp [hp]⟩⟩

/-- C3, witness: in `demoState` (current bet 10, `alice` on turn with 100
chips), a raise to 15 is rejected unchanged, and a raise to 20 is
accepted with `currentBet` rising from 10 to 20 and the pot growing by
the 20-chip delta to 35. -/
theorem handleRaise_validation_amended_witness :
    handleRaise demoState "a" 15 = demoState ∧
    (handleRaise demoState "a" 20).currentBet = 20 ∧
    (handleRaise demoState "a" 20).pot = 35 := by
  refine ⟨(handleRaise_validation_amended demoState "a" 15 alice (by decide)
      (by decide)).1 (by decide),
    ((handleRaise_validation_amended demoState "a" 20 alice (by decide)
      (by decide)).2 (by decide) (by decide)).1,
    ?_⟩
  have h := ((handleRaise_validation_amended demoState "a" 20 alice (by decide)
      (by decide)).2 (by decide) (by decide)).2.1
  rw [h]
  decide

/-- C3, counterexample to the claim as stated: in `zeroBetState`
(`currentBet = 0`, `alice` on turn, bet 0, 100 chips) the raise to
`betAmount = 0` satisfies both acceptance conditions and is accepted —
the resulting state differs (the turn advances) — yet `currentBet` stays
at 0 instead of strictly increasing. -/
theorem handleRaise_strict_increase_cex :
    isPlayerTurn zeroBetState "a" = true ∧
    zeroBetState.currentBet * 2 ≤ 0 ∧
    ((0 : Int) - 0 ≤ 100) ∧
    handleRaise zeroBetState "a" 0 ≠ zeroBetState ∧
    (handleRaise zeroBetState "a" 0).currentBet = zeroBetState.currentBet := by
  exact ⟨by decide, by decide, by decide, by decide, by decide⟩

lemma forall₂_comp {R S T : Player → Player → Prop}
    (h : ∀ a b c, R a b → S b c → T a c) :
    ∀ {l₁ l₂ l₃ : List Player}, List.Forall₂ R l₁ l₂ → List.Forall₂ S l₂ l₃ →
      List.Forall₂ T l₁ l₃ := by
  intro l₁ l₂ l₃ h₁
  induction h₁ generalizing l₃ with
  | nil =>
    intro h₂
    cases h₂
    exact List.Forall₂.nil
  | cons hab htail ih =>
    intro h₂
    cases h₂ with
    | cons hbc h₂ => exact List.Forall₂.cons (h _ _ _ hab hbc) (ih h₂)

lemma dealRound_spec : ∀ (ps : List Player) (deck : List Card),
    activeCount ps ≤ deck.length →
    (List.Forall₂ (fun p q =>
       (p.isActive = true → ∃ c : Card, c.faceUp = false ∧
          q = { p with cards := p.cards ++ [c] }) ∧
       (p.isActive = false → q = p)) ps (dealRound ps deck).1) ∧
    (dealRound ps deck).2.length = deck.length - activeCount ps := by
  intro ps
  induction ps with
  | nil =>
    intro deck h
    exact ⟨List.Forall₂.nil, by simp [dealRound, activeCount]⟩
  | cons p t ih =>
    intro deck h
    have hacc : activeCount (p :: t) = activeCount t + (if p.isActive then 1 else 0) := by
      simp [activeCount, List.countP_cons]
    by_cases hp : p.isActive = true
    · have hne : deck ≠ [] := by
        intro he
        rw [he] at h
        rw [hacc] at h
        simp [hp] at h
      obtain ⟨d, c, hd⟩ : ∃ d c, deck = d ++ [c] := by
        rcases List.eq_nil_or_concat deck with h0 | ⟨d, c, hd⟩
        · exact absurd h0 hne
        · exact ⟨d, c, by simpa using hd⟩
      subst hd
      have hlen : activeCount t ≤ d.length := by
        rw [hacc] at h
        simp [hp, List.length_append] at h
        omega
      have hrec := ih d hlen
      unfold dealRound
      rw [if_pos hp, popCard_concat]
      dsimp only
      refine ⟨List.Forall₂.cons ⟨fun _ => ⟨{ c with faceUp := false }, rfl, rfl⟩,
        fun hfalse => absurd hp (by simp [hfalse])⟩ hrec.1, ?_⟩
      rw [hrec.2, hacc]
      simp [hp, List.length_append]
    · have hp' : p.isActive = false := by
        cases hb : p.isActive
        · rfl
        · exact absurd hb hp
      have hlen : activeCount t ≤ deck.length := by
        rw [hacc] at h
        simp [hp'] at h
        omega
      have hrec := ih deck hlen
      unfold dealRound
      rw [if_neg (by simp [hp'])]
      dsimp only
      refine ⟨List.Forall₂.cons ⟨fun htrue => absurd htrue (by simp [hp']),
        fun _ => rfl⟩ hrec.1, ?_⟩
      rw [hrec.2, hacc]
      simp [hp']

lemma forall₂_dealt_activeCount {l₁ l₂ : List Player}
    (h : List.Forall₂ (fun p q =>
       (p.isActive = true → ∃ c : Card, c.faceUp = false ∧
          q = { p with cards := p.cards ++ [c] }) ∧
       (p.isActive = false → q = p)) l₁ l₂) :
    activeCount l₂ = activeCount l₁ := by
  induction h with
  | nil => rfl
  | cons hpq htail ih =>
    rename_i p q t₁ t₂
    have hiso : q.isActive = p.isActive := by
      cases hb : p.isActive
      · rw [hpq.2 hb]
        exact hb
      · obtain ⟨c, _, hq⟩ := hpq.1 hb
        rw [hq]
        exact hb
    have ih' : List.countP (fun r => r.isActive) t₂ = List.countP (fun r => r.isActive) t₁ := ih
    simp [activeCount, List.countP_cons, hiso, ih']

/-- C8: on a deck holding at least `2 × activeCount` cards, `dealCards`
removes exactly two cards per active player from the deck; every active
player who started with an empty hand ends with exactly two face-down
cards, and every inactive player is returned untouched. -/
theorem dealCards_spec (gs : GameState)
    (hdeck : 2 * activeCount gs.players ≤ gs.deck.length) :
    (dealCards gs).deck.length = gs.deck.length - 2 * activeCount gs.players ∧
    List.Forall₂ (fun p q =>
      (p.isActive = true → p.cards = [] →
        q.cards.length = 2 ∧ ∀ c ∈ q.cards, c.faceUp = false) ∧
      (p.isActive = false → q = p)) gs.players (dealCards gs).players := by
  have h1 := dealRound_spec gs.players gs.deck (by omega)
  have hcnt := forall₂_dealt_activeCount h1.1
  have hlen2 : activeCount (dealRound gs.players gs.deck).1
      ≤ (dealRound gs.players gs.deck).2.length := by
    rw [hcnt, h1.2]
    omega
  have h2 := dealRound_spec (dealRound gs.players gs.deck).1
    (dealRound gs.players gs.deck).2 hlen2
  constructor
  · show (dealRound (dealRound gs.players gs.deck).1 (dealRound gs.players gs.deck).2).2.length = _
    rw [h2.2, h1.2, hcnt]
    omega
  · show List.Forall₂ _ gs.players
      (dealRound (dealRound gs.players gs.deck).1 (dealRound gs.players gs.deck).2).1
    refine forall₂_comp ?_ h1.1 h2.1
    intro a b c hab hbc
    constructor
    · intro hact hcards
      obtain ⟨c1, hc1, hb⟩ := hab.1 hact
      have hbact : b.isActive = true := by rw [hb]; exact hact
      obtain ⟨c2, hc2, hc⟩ := hbc.1 hbact
      have : c.cards = [c1, c2] := by
        rw [hc, hb, hcards]
        rfl
      rw [this]
      refine ⟨rfl, ?_⟩
      intro x hx
      rcases List.mem_cons.mp hx with h | h
      · exact h ▸ hc1
      · rcases List.mem_cons.mp h with h' | h'
        · exact h' ▸ hc2
        · cases h'
    · intro hinact
      have hb := hab.2 hinact
      have hbin : b.isActive = false := by rw [hb]; exact hinact
      rw [hbc.2 hbin, hb]

/-- C8, witness: `demoState` has two active players with empty hands and
a five-card deck; after the deal exactly one card is left. -/
theorem dealCards_spec_witness :
    (dealCards demoState).deck.length = 1 := by
  have h := (dealCards_spec demoState (by decide)).1
  rw [h]
  decide

lemma mod_two_regions (t n : Nat) (h : t < 2 * n) :
    t % n = if t < n then t else t - n := by
  split
  · rename_i h1
    exact Nat.mod_eq_of_lt h1
  · rename_i h2
    have h1 : n ≤ t := Nat.le_of_not_lt h2
    rw [Nat.mod_eq_sub_mod h1, Nat.mod_eq_of_lt (by omega)]

lemma cdist_eq_zero_iff (n idx j : Nat) (hidx : idx < n) (hj : j < n) :
    (j + n - idx) % n = 0 ↔ j = idx := by
  rw [mod_two_regions _ _ (by omega)]
  split <;> omega

lemma cdist_step (n idx j : Nat) (hidx : idx < n) (hj : j < n) (hne : j ≠ idx) :
    (j + n - (idx + 1) % n) % n = (j + n - idx) % n - 1 := by
  by_cases h1 : idx + 1 < n
  · rw [Nat.mod_eq_of_lt h1,
      mod_two_regions (j + n - (idx + 1)) n (by omega),
      mod_two_regions (j + n - idx) n (by omega)]
    split <;> split <;> omega
  · have h2 : idx + 1 = n := by omega
    have h3 : (idx + 1) % n = 0 := by simp [h2]
    rw [h3, Nat.sub_zero, Nat.add_mod_right, Nat.mod_eq_of_lt hj,
      mod_two_regions (j + n - idx) n (by omega)]
    split <;> omega

lemma findNextActive_lt (players : List Player) (cpi : Nat) (hn : 0 < players.length) :
    ∀ (fuel idx : Nat), idx < players.length →
      findNextActive players cpi idx fuel < players.length := by
  intro fuel
  induction fuel with
  | zero =>
    intro idx h
    exact h
  | succ fuel ih =>
    intro idx h
    unfold findNextActive
    split
    · exact ih _ (Nat.mod_lt _ hn)
    · exact h

lemma findNextActive_active (players : List Player) (cpi : Nat)
    (hcpi : cpi < players.length) :
    ∀ (fuel idx j : Nat), idx < players.length → j < players.length →
      (players[j]?.map Player.isActive).getD false = true →
      (j + players.length - idx) % players.length
        ≤ (cpi + players.length - idx) % players.length →
      (j + players.length - idx) % players.length ≤ fuel →
      (players[(findNextActive players cpi idx fuel)]?.map Player.isActive).getD false
        = true := by
  intro fuel
  induction fuel with
  | zero =>
    intro idx j hidx hj hact hle hfuel
    have hj0 : j = idx := (cdist_eq_zero_iff players.length idx j hidx hj).mp
      (Nat.le_zero.mp hfuel)
    subst hj0
    exact hact
  | succ fuel ih =>
    intro idx j hidx hj hact hle hfuel
    have hn : 0 < players.length := Nat.lt_of_le_of_lt (Nat.zero_le _) hcpi
    unfold findNextActive
    by_cases hA : ((players[idx]?.map Player.isActive).getD false) = true
    · rw [if_neg (by simp [hA])]
      exact hA
    · have hA' : ((players[idx]?.map Player.isActive).getD false) = false :=
        Bool.not_eq_true _ ▸ (by simpa using hA)
      by_cases hcp : idx = cpi
      · exfalso
        have h0 : (cpi + players.length - idx) % players.length = 0 := by
          rw [hcp, show cpi + players.length - cpi = players.length from by omega,
            Nat.mod_self]
        have hj0 : j = idx := (cdist_eq_zero_iff _ idx j hidx hj).mp (by omega)
        rw [hj0] at hact
        rw [hact] at hA'
        cases hA'
      · rw [if_pos (by simp [hA', hcp])]
        have hjne : j ≠ idx := by
          intro he
          rw [he] at hact
          rw [hact] at hA'
          cases hA'
        have hcpne : cpi ≠ idx := fun he => hcp he.symm
        have hs1 := cdist_step players.length idx j hidx hj hjne
        have hs2 := cdist_step players.length idx cpi hidx hcpi hcpne
        have hpos : 0 < (j + players.length - idx) % players.length := by
          rcases Nat.eq_zero_or_pos ((j + players.length - idx) % players.length)
            with h0 | h0
          · exact absurd ((cdist_eq_zero_iff _ idx j hidx hj).mp h0) hjne
          · exact h0
        exact ih ((idx + 1) % players.length) j (Nat.mod_lt _ hn) hj hact
          (by omega) (by omega)

lemma mapWithIndex_length (f : Nat → Player → Player) :
    ∀ (k : Nat) (l : List Player), (mapWithIndex f k l).length = l.length := by
  intro k l
  induction l generalizing k with
  | nil => rfl
  | cons p t ih => simp [mapWithIndex, ih]

lemma mapWithIndex_getElem? (f : Nat → Player → Player) :
    ∀ (k : Nat) (l : List Player) (i : Nat),
      (mapWithIndex f k l)[i]? = (l[i]?).map (f (k + i)) := by
  intro k l
  induction l generalizing k with
  | nil => intro i; simp [mapWithIndex]
  | cons p t ih =>
    intro i
    cases i with
    | zero => simp [mapWithIndex]
    | succ m =>
      have hcons : (mapWithIndex f k (p :: t))[m + 1]? = (mapWithIndex f (k + 1) t)[m]? := by
        show (f k p :: mapWithIndex f (k + 1) t)[m + 1]? = _
        simp [List.getElem?_cons_succ]
      rw [hcons, ih (k + 1) m, List.getElem?_cons_succ]
      have : k + 1 + m = k + (m + 1) := by omega
      rw [this]

/-- C7: on a non-empty player list with an in-range cursor, `nextPlayer`
resolves an in-range index, stores it in `currentPlayerIndex`, marks
exactly that index `isTurn = true` (every other index `false`), and the
player at the resolved index is active unless every player is inactive. -/
theorem nextPlayer_spec (gs : GameState) (hne : gs.players ≠ [])
    (hcpi : gs.currentPlayerIndex < gs.players.length) :
    (nextPlayer gs).players.length = gs.players.length ∧
    (nextPlayer gs).currentPlayerIndex < gs.players.length ∧
    (∀ i, i < gs.players.length →
      (((nextPlayer gs).players[i]?.map Player.isTurn) = some true ↔
        i = (nextPlayer gs).currentPlayerIndex)) ∧
    ((gs.players[(nextPlayer gs).currentPlayerIndex]?.map Player.isActive).getD false
        = true ∨
      ∀ p ∈ gs.players, p.isActive = false) := by
  have hn : 0 < gs.players.length := List.length_pos.mpr hne
  have hstart : (gs.currentPlayerIndex + 1) % gs.players.length < gs.players.length :=
    Nat.mod_lt _ hn
  have hlt : (nextPlayer gs).currentPlayerIndex < gs.players.length :=
    findNextActive_lt gs.players gs.currentPlayerIndex hn gs.players.length _ hstart
  refine ⟨?_, hlt, ?_, ?_⟩
  · show (mapWithIndex _ 0 gs.players).length = _
    exact mapWithIndex_length _ 0 gs.players
  · intro i hi
    show ((mapWithIndex _ 0 gs.players)[i]?.map Player.isTurn) = some true ↔ _
    rw [mapWithIndex_getElem?]
    rw [List.getElem?_eq_getElem hi]
    show (some ((0 + i) == findNextActive gs.players gs.currentPlayerIndex
      ((gs.currentPlayerIndex + 1) % gs.players.length) gs.players.length)
        = some true) ↔ _
    rw [Nat.zero_add]
    have hredIdx : (nextPlayer gs).currentPlayerIndex
        = findNextActive gs.players gs.currentPlayerIndex
          ((gs.currentPlayerIndex + 1) % gs.players.length) gs.players.length := rfl
    rw [hredIdx]
    constructor
    · intro hsome
      have hb2 : (i == findNextActive gs.players gs.currentPlayerIndex
          ((gs.currentPlayerIndex + 1) % gs.players.length) gs.players.length) = true := by
        injection hsome
      exact eq_of_beq hb2
    · intro heq
      rw [beq_iff_eq.mpr heq]
  · by_cases hex : ∃ j, j < gs.players.length ∧
      (gs.players[j]?.map Player.isActive).getD false = true
    · left
      obtain ⟨j, hj, hact⟩ := hex
      have hcd : (gs.currentPlayerIndex + gs.players.length
          - ((gs.currentPlayerIndex + 1) % gs.players.length)) % gs.players.length
          = gs.players.length - 1 := by
        by_cases h1 : gs.currentPlayerIndex + 1 < gs.players.length
        · rw [Nat.mod_eq_of_lt h1,
            mod_two_regions _ _ (by omega)]
          split <;> omega
        · have h2 : gs.currentPlayerIndex + 1 = gs.players.length := by omega
          have h3 : (gs.currentPlayerIndex + 1) % gs.players.length = 0 := by simp [h2]
          rw [h3, Nat.sub_zero, Nat.add_mod_right,
            Nat.mod_eq_of_lt hcpi]
          omega
      have hjb : (j + gs.players.length
          - ((gs.currentPlayerIndex + 1) % gs.players.length)) % gs.players.length
          ≤ gs.players.length - 1 := by
        have := Nat.mod_lt (j + gs.players.length
          - ((gs.currentPlayerIndex + 1) % gs.players.length)) hn
        omega
      exact findNextActive_active gs.players gs.currentPlayerIndex hcpi
        gs.players.length ((gs.currentPlayerIndex + 1) % gs.players.length) j
        hstart hj hact (by omega) (by omega)
    · right
      intro p hp
      obtain ⟨i, hi, hip⟩ := List.mem_iff_getElem.mp hp
      by_cases hb : p.isActive = true
      · exfalso
        apply hex
        refine ⟨i, hi, ?_⟩
        rw [List.getElem?_eq_getElem hi, hip]
        simpa using hb
      · cases hq : p.isActive
        · rfl
        · exact absurd hq hb

/-- C7, witness: on `demoState` (alice has acted), `nextPlayer` hands the
turn to index 1 (`bob`), who is active. -/
theorem nextPlayer_spec_witness :
    (nextPlayer demoState).players.length = 2 ∧
    (nextPlayer demoState).currentPlayerIndex < 2 ∧
    ((nextPlayer demoState).players[1]?.map Player.isTurn) = some true := by
  have h := nextPlayer_spec demoState (by decide) (by decide)
  refine ⟨h.1, h.2.1, ?_⟩
  exact (h.2.2.1 1 (by decide)).mpr (by decide)
